import Mathlib

/-!
Shallow embedding of the skillbridge channel module
(src/skillbridge/client/channel.py) and proofs about it.

Bytes are modelled as natural numbers (their ASCII codes); byte strings
as lists of naturals.  Socket effects are modelled by explicit scripts:
a write oracle saying which sendall calls succeed, and a read script
giving the result of each recv call.
-/

namespace Skillbridge

/-- Error taxonomy of the channel module.  Each constructor corresponds to
a distinct exception the Python code can raise: ValueError for oversized
payloads, OSError or BrokenPipeError propagating from a write, the two
RuntimeErrors of the receive path, ValueError from int() on a bad length
header, ValueError from tuple unpacking in decode_response, the two
RuntimeErrors of decode_response, and a raw KeyboardInterrupt. -/
inductive Err where
  | oversized (got should : Nat)
  | transport
  | receiveAborted
  | peerTerminated
  | headerParse
  | noSpace
  | remoteTimeout
  | remoteFailure (msg : List Nat)
  | rawInterrupt
  deriving DecidableEq, Repr

/-- ASCII code of the space character. -/
def spaceByte : Nat := 32

/-- Decimal digits of a natural number as ASCII bytes, most significant
first, with explicit fuel (structural recursion).  Mirrors the rendering
done by the format specifier in the Python source. -/
def toDecimalAux : Nat → Nat → List Nat
  | 0, _ => []
  | f + 1, n =>
      if n < 10 then [48 + n]
      else toDecimalAux f (n / 10) ++ [48 + n % 10]

/-- Decimal ASCII rendering of a natural number, as produced by the
Python expression str(n). -/
def toDecimal (n : Nat) : List Nat := toDecimalAux (n + 1) n

/-- The 10-byte length header written by _send_only: the decimal length
right-justified in a field of width 10, padded with spaces on the left
(a longer decimal is emitted unpadded and untruncated, exactly like the
Python format specifier). -/
def encodeLength (n : Nat) : List Nat :=
  let d := toDecimal n
  if d.length < 10 then List.replicate (10 - d.length) spaceByte ++ d else d

/-- The bytes _send_only puts on the wire for a payload: the length
header followed by the payload itself. -/
def encode_frame (payload : List Nat) : List Nat :=
  encodeLength payload.length ++ payload

/-- Value of a list of ASCII digit bytes read as a decimal numeral. -/
def digitsVal (ds : List Nat) : Nat :=
  ds.foldl (fun acc c => acc * 10 + (c - 48)) 0

/-- Whether a byte is an ASCII decimal digit. -/
def isDigitByte (c : Nat) : Bool := 48 ≤ c && c ≤ 57

/-- Strip leading and trailing space bytes, as Python int() does with
whitespace around a numeral. -/
def stripSpaces (b : List Nat) : List Nat :=
  ((b.dropWhile (fun c => c == spaceByte)).reverse.dropWhile
    (fun c => c == spaceByte)).reverse

/-- Model of the Python call int(bytes): strip surrounding whitespace,
then require a nonempty all-digit numeral; none models the ValueError
raised on anything else. -/
def parseIntBytes (b : List Nat) : Option Nat :=
  let t := stripSpaces b
  if t = [] then none
  else if t.all isDigitByte then some (digitsVal t) else none

/-- Frame decoding as performed by _receive_only: parse the first 10
bytes as a decimal integer N, then take exactly N following bytes. -/
def decode_frame (frame : List Nat) : Option (List Nat) :=
  match parseIntBytes (frame.take 10) with
  | none => none
  | some n => some ((frame.drop 10).take n)

/-- ASCII bytes of the literal failure. -/
def failureBytes : List Nat := [102, 97, 105, 108, 117, 114, 101]

/-- ASCII bytes of the literal success. -/
def successBytes : List Nat := [115, 117, 99, 99, 101, 115, 115]

/-- ASCII bytes of the literal timeout sentinel. -/
def timeoutBytes : List Nat := [60, 116, 105, 109, 101, 111, 117, 116, 62]

/-- Split a byte string at the first space, mirroring the Python call
split with maxsplit one; none models the ValueError raised by tuple
unpacking when no space is present. -/
def splitFirstSpace : List Nat → Option (List Nat × List Nat)
  | [] => none
  | c :: rest =>
      if c = spaceByte then some ([], rest)
      else
        match splitFirstSpace rest with
        | none => none
        | some (a, b) => some (c :: a, b)

/-- Channel.decode_response: split the response at the first space; a
failure status raises (the timeout sentinel with its own message, any
other body verbatim); every other status returns the remainder. -/
def decode_response (r : List Nat) : Except Err (List Nat) :=
  match splitFirstSpace r with
  | none => Except.error Err.noSpace
  | some (status, rest) =>
      if status = failureBytes then
        if rest = timeoutBytes then Except.error Err.remoteTimeout
        else Except.error (Err.remoteFailure rest)
      else Except.ok rest

end Skillbridge

namespace Skillbridge

/-- Observable state of the TCP socket on the write side: how many
sendall calls have been attempted, how many reconnect calls have been
made, and the chunks successfully written, in order. -/
structure Wire where
  writesAttempted : Nat
  reconnects : Nat
  written : List (List Nat)
  deriving DecidableEq, Repr

/-- A fresh wire with no activity. -/
def Wire.init : Wire := ⟨0, 0, []⟩

/-- One sendall call against a write oracle: ok gives the outcome of
each successive attempt (true means the write succeeds, false means it
raises BrokenPipeError or OSError).  A failed write puts no bytes on
the wire. -/
def tryWrite (ok : Nat → Bool) (w : Wire) (chunk : List Nat) : Wire × Bool :=
  if ok w.writesAttempted then
    ({ w with writesAttempted := w.writesAttempted + 1,
              written := w.written ++ [chunk] }, true)
  else
    ({ w with writesAttempted := w.writesAttempted + 1 }, false)

/-- TcpChannel.reconnect: close the old handle and open a new one; only
the count is observable here. -/
def doReconnect (w : Wire) : Wire := { w with reconnects := w.reconnects + 1 }

/-- The first try block of _send_only: write the length header; on
failure reconnect once and rewrite the header, a failure of that second
write propagating as a transport error. -/
def sendLengthPhase (ok : Nat → Bool) (lenB : List Nat) (w : Wire) :
    Wire × Option Err :=
  let r := tryWrite ok w lenB
  if r.2 then (r.1, none)
  else
    let r2 := tryWrite ok (doReconnect r.1) lenB
    if r2.2 then (r2.1, none) else (r2.1, some Err.transport)

/-- The second try block of _send_only: write the payload; on failure
reconnect once and rewrite the header and then the payload, a failure of
either of those writes propagating as a transport error. -/
def sendPayloadPhase (ok : Nat → Bool) (lenB data : List Nat) (w : Wire) :
    Wire × Option Err :=
  let r := tryWrite ok w data
  if r.2 then (r.1, none)
  else
    let r2 := tryWrite ok (doReconnect r.1) lenB
    if r2.2 then
      let r3 := tryWrite ok r2.1 data
      if r3.2 then (r3.1, none) else (r3.1, some Err.transport)
    else (r2.1, some Err.transport)

/-- TcpChannel._send_only: reject an oversized payload before any write,
then run the two guarded writes. -/
def sendOnly (ok : Nat → Bool) (maxLen : Nat) (data : List Nat) (w : Wire) :
    Wire × Option Err :=
  if data.length > maxLen then (w, some (Err.oversized data.length maxLen))
  else
    let lenB := encodeLength data.length
    let p := sendLengthPhase ok lenB w
    match p.2 with
    | some e => (p.1, some e)
    | none => sendPayloadPhase ok lenB data p.1

/-- Result of one recv call in the read script: either the bytes it
returned (possibly empty, possibly fewer than requested) or a
KeyboardInterrupt arriving while blocked in it. -/
inductive ReadEvent where
  | bytes (b : List Nat)
  | interrupt
  deriving DecidableEq, Repr

/-- TcpChannel._receive_all, driven by the read script from index i:
loop while bytes remain outstanding, each recv returning at most the
outstanding count (extra bytes are truncated, as recv never returns
more than requested); an empty read leaves the count unchanged.  Fuel
bounds the number of iterations modelled; none means the loop is still
running after that many recv calls.  A KeyboardInterrupt inside a body
recv propagates raw. -/
def receiveBody (reads : Nat → ReadEvent) : Nat → Nat → Nat → Option (Except Err (List Nat))
  | _, _, 0 => none
  | i, remaining, f + 1 =>
      if remaining = 0 then some (Except.ok [])
      else
        match reads i with
        | ReadEvent.interrupt => some (Except.error Err.rawInterrupt)
        | ReadEvent.bytes b =>
            let d := b.take remaining
            match receiveBody reads (i + 1) (remaining - d.length) f with
            | none => none
            | some (Except.error e) => some (Except.error e)
            | some (Except.ok rest) => some (Except.ok (d ++ rest))

/-- TcpChannel._receive_only: recv the 10-byte length header (a
KeyboardInterrupt here is converted to the receive-aborted error), treat
an empty read as the peer having died, parse the header with int, read
exactly that many body bytes, and decode the response. -/
def receiveOnly (reads : Nat → ReadEvent) (fuel : Nat) : Option (Except Err (List Nat)) :=
  match reads 0 with
  | ReadEvent.interrupt => some (Except.error Err.receiveAborted)
  | ReadEvent.bytes b =>
      if b = [] then some (Except.error Err.peerTerminated)
      else
        match parseIntBytes b with
        | none => some (Except.error Err.headerParse)
        | some n =>
            match receiveBody reads 1 n fuel with
            | none => none
            | some (Except.error e) => some (Except.error e)
            | some (Except.ok body) => some (decode_response body)

/-- TcpChannel.send: _send_only then _receive_only.  The result pairs
the final wire state with the outcome; none means send is still blocked
in the body-read loop. -/
def send (ok : Nat → Bool) (reads : Nat → ReadEvent) (maxLen : Nat)
    (data : List Nat) (w : Wire) (fuel : Nat) :
    Option (Wire × Except Err (List Nat)) :=
  match sendOnly ok maxLen data w with
  | (w2, some e) => some (w2, Except.error e)
  | (w2, none) =>
      match receiveOnly reads fuel with
      | none => none
      | some r => some (w2, r)

/-- Observable state of a TcpChannel for the close path: the connected
flag, the chunks written, and whether the handle has been closed. -/
structure Chan where
  connected : Bool
  written : List (List Nat)
  handleClosed : Bool
  deriving DecidableEq, Repr

/-- The 16 literal bytes the close handshake writes: a 10-byte
space-padded header encoding 6 followed by the dollar-close token. -/
def closeFrame : List Nat :=
  [32, 32, 32, 32, 32, 32, 32, 32, 32, 54, 36, 99, 108, 111, 115, 101]

/-- TcpChannel.close: if connected, write the close frame, close the
handle and clear the flag; otherwise do nothing. -/
def close (c : Chan) : Chan :=
  if c.connected then
    { connected := false, written := c.written ++ [closeFrame],
      handleClosed := true }
  else c

/-- TcpChannel.flush, driven from poll index i: each iteration polls the
socket (readable i is what select reports within its 0.1 second
timeout); when readable, recv a header (reads gives what the header
recv of iteration i returns), parse it with int — a parse failure is
the ValueError escaping from flush — then recv and discard that many
body bytes (the discarded bytes are not modelled) and poll again; when
not readable, return.  Fuel bounds the iterations modelled; none means
the loop is still running after that many polls. -/
def flush (readable : Nat → Bool) (reads : Nat → List Nat) :
    Nat → Nat → Option (Except Err Unit)
  | _, 0 => none
  | i, f + 1 =>
      if readable i then
        match parseIntBytes (reads i) with
        | none => some (Except.error Err.headerParse)
        | some _ => flush readable reads (i + 1) f
      else some (Except.ok ())

end Skillbridge

namespace Skillbridge

theorem splitFirstSpace_of_no_space :
    ∀ b : List Nat, spaceByte ∉ b → splitFirstSpace b = none := by
  intro b
  induction b with
  | nil => intro _; rfl
  | cons c rest ih =>
      intro h
      simp only [List.mem_cons, not_or] at h
      have hc : ¬ c = spaceByte := fun e => h.1 e.symm
      simp [splitFirstSpace, hc, ih h.2]

theorem splitFirstSpace_append (s r : List Nat) (hs : spaceByte ∉ s) :
    splitFirstSpace (s ++ spaceByte :: r) = some (s, r) := by
  induction s with
  | nil => simp [splitFirstSpace]
  | cons c rest ih =>
      simp only [List.mem_cons, not_or] at hs
      have hc : ¬ c = spaceByte := fun e => hs.1 e.symm
      simp [splitFirstSpace, hc, ih hs.2]

/-- C8: for a response of the form status-space-rest split at the first
space, decode_response returns the rest unchanged when the status is
the success literal; when the status is the failure literal and the rest
is the timeout sentinel it signals the timeout error; when the status is
the failure literal and the rest is anything else it signals a remote
failure carrying the rest verbatim. -/
theorem decode_response_cases (rest1 rest2 : List Nat) (hne : rest2 ≠ timeoutBytes) :
    decode_response (successBytes ++ spaceByte :: rest1) = Except.ok rest1 ∧
    decode_response (failureBytes ++ spaceByte :: timeoutBytes) =
      Except.error Err.remoteTimeout ∧
    decode_response (failureBytes ++ spaceByte :: rest2) =
      Except.error (Err.remoteFailure rest2) := by
  refine ⟨?_, ?_, ?_⟩
  · have h := splitFirstSpace_append successBytes rest1 (by decide)
    simp [decode_response, h, show successBytes ≠ failureBytes by decide]
  · have h := splitFirstSpace_append failureBytes timeoutBytes (by decide)
    simp [decode_response, h]
  · have h := splitFirstSpace_append failureBytes rest2 (by decide)
    simp [decode_response, h, hne]

/-- Witness for C8 at concrete inputs. -/
theorem decode_response_cases_witness :
    decode_response (successBytes ++ spaceByte :: [104, 105]) = Except.ok [104, 105] ∧
    decode_response (failureBytes ++ spaceByte :: timeoutBytes) =
      Except.error Err.remoteTimeout ∧
    decode_response (failureBytes ++ spaceByte :: [104, 105]) =
      Except.error (Err.remoteFailure [104, 105]) :=
  decode_response_cases [104, 105] [104, 105] (by decide)

/-- C3 counterexample: the response garbage-space-hello has a first
token that is neither the success nor the failure literal, yet
decode_response returns it as a success value instead of signalling a
protocol violation. -/
theorem decode_response_unknown_status_counterexample :
    splitFirstSpace [103, 97, 114, 98, 97, 103, 101, 32, 104, 101, 108, 108, 111] =
      some ([103, 97, 114, 98, 97, 103, 101], [104, 101, 108, 108, 111]) ∧
    [103, 97, 114, 98, 97, 103, 101] ≠ successBytes ∧
    [103, 97, 114, 98, 97, 103, 101] ≠ failureBytes ∧
    decode_response [103, 97, 114, 98, 97, 103, 101, 32, 104, 101, 108, 108, 111] =
      Except.ok [104, 101, 108, 108, 111] :=
  ⟨by decide, by decide, by decide, rfl⟩

/-- C3 amended: a response with no space separator makes decode_response
signal the tuple-unpacking ValueError, which is distinct from a remote
failure; but a response whose first space-delimited token is anything
other than the failure literal — including unrecognized statuses — is
returned as a success value. -/
theorem decode_response_malformed (b s r : List Nat)
    (hb : spaceByte ∉ b) (hs : spaceByte ∉ s) (hsf : s ≠ failureBytes) :
    decode_response b = Except.error Err.noSpace ∧
    (∀ msg, Err.noSpace ≠ Err.remoteFailure msg) ∧
    decode_response (s ++ spaceByte :: r) = Except.ok r := by
  refine ⟨?_, by intro msg; simp, ?_⟩
  · simp [decode_response, splitFirstSpace_of_no_space b hb]
  · simp [decode_response, splitFirstSpace_append s r hs, hsf]

/-- Witness for C3 amended at concrete inputs. -/
theorem decode_response_malformed_witness :
    decode_response [104, 105] = Except.error Err.noSpace ∧
    decode_response ([103] ++ spaceByte :: [104]) = Except.ok [104] := by
  have h := decode_response_malformed [104, 105] [103] [104]
    (by decide) (by decide) (by decide)
  exact ⟨h.1, h.2.2⟩

/-- C9: close on a connected channel writes exactly the 16-byte control
frame of the space-padded decimal 6 followed by the dollar-close token,
closes the handle and clears the connected flag; a second close changes
nothing and performs no further write. -/
theorem close_spec (c : Chan) (h : c.connected = true) :
    close c = ⟨false, c.written ++ [closeFrame], true⟩ ∧
    closeFrame = [32, 32, 32, 32, 32, 32, 32, 32, 32, 54, 36, 99, 108, 111, 115, 101] ∧
    closeFrame.length = 16 ∧
    close (close c) = close c := by
  refine ⟨by simp [close, h], rfl, by decide, ?_⟩
  simp [close, h]

/-- Witness for C9 on a concrete connected channel. -/
theorem close_spec_witness :
    close ⟨true, [], false⟩ = ⟨false, [closeFrame], true⟩ ∧
    close (close ⟨true, [], false⟩) = close ⟨true, [], false⟩ := by
  have h := close_spec ⟨true, [], false⟩ rfl
  exact ⟨by rw [h.1]; rfl, h.2.2.2⟩

end Skillbridge

namespace Skillbridge

theorem tryWrite_fst_reconnects (ok : Nat → Bool) (w : Wire) (c : List Nat) :
    (tryWrite ok w c).1.reconnects = w.reconnects := by
  unfold tryWrite; split <;> rfl

theorem tryWrite_fst_writesAttempted (ok : Nat → Bool) (w : Wire) (c : List Nat) :
    (tryWrite ok w c).1.writesAttempted = w.writesAttempted + 1 := by
  unfold tryWrite; split <;> rfl

theorem doReconnect_reconnects (w : Wire) :
    (doReconnect w).reconnects = w.reconnects + 1 := rfl

theorem sendLengthPhase_reconnects (ok : Nat → Bool) (lenB : List Nat) (w : Wire) :
    w.reconnects ≤ (sendLengthPhase ok lenB w).1.reconnects ∧
    (sendLengthPhase ok lenB w).1.reconnects ≤ w.reconnects + 1 := by
  simp only [sendLengthPhase]
  split
  · rw [tryWrite_fst_reconnects]; omega
  · split <;>
      simp only [tryWrite_fst_reconnects, doReconnect_reconnects] <;> omega

theorem sendPayloadPhase_reconnects (ok : Nat → Bool) (lenB data : List Nat) (w : Wire) :
    w.reconnects ≤ (sendPayloadPhase ok lenB data w).1.reconnects ∧
    (sendPayloadPhase ok lenB data w).1.reconnects ≤ w.reconnects + 1 := by
  simp only [sendPayloadPhase]
  split
  · rw [tryWrite_fst_reconnects]; omega
  · split
    · split <;>
        simp only [tryWrite_fst_reconnects, doReconnect_reconnects] <;> omega
    · simp only [tryWrite_fst_reconnects, doReconnect_reconnects]; omega

end Skillbridge

namespace Skillbridge

/-- C1 counterexample: with a write oracle failing the first header
write and the first payload write (each retry succeeding), _send_only
completes normally having performed two reconnects in a single call,
contradicting the at-most-one-reconnect-per-call claim. -/
theorem sendOnly_two_reconnects_counterexample :
    (sendOnly (fun j => decide (j ≠ 0 ∧ j ≠ 2)) 100 [104, 105] Wire.init).2 = none ∧
    (sendOnly (fun j => decide (j ≠ 0 ∧ j ≠ 2)) 100 [104, 105] Wire.init).1.reconnects = 2 :=
  ⟨rfl, rfl⟩

/-- C1 amended: each of the two writes of _send_only has its own
one-reconnect-and-retry recovery, so a single call performs at most two
reconnects (one per write), not at most one; and when only the very
first write fails, exactly one reconnect is performed and the call
completes normally. -/
theorem sendOnly_reconnect_policy (ok : Nat → Bool) (maxLen : Nat)
    (data : List Nat) (w : Wire) :
    (sendOnly ok maxLen data w).1.reconnects ≤ w.reconnects + 2 ∧
    (data.length ≤ maxLen → ok w.writesAttempted = false →
      (∀ j, j ≠ w.writesAttempted → ok j = true) →
      (sendOnly ok maxLen data w).2 = none ∧
      (sendOnly ok maxLen data w).1.reconnects = w.reconnects + 1) := by
  constructor
  · simp only [sendOnly]
    split
    · simp
    · split
      · have h := sendLengthPhase_reconnects ok (encodeLength data.length) w
        simpa using h.2.trans (by omega)
      · have h1 := sendLengthPhase_reconnects ok (encodeLength data.length) w
        have h2 := sendPayloadPhase_reconnects ok (encodeLength data.length) data
          (sendLengthPhase ok (encodeLength data.length) w).1
        omega
  · intro hlen hok0 hrest
    have h1 : ok (w.writesAttempted + 1) = true := hrest _ (by omega)
    have h2 : ok (w.writesAttempted + 2) = true := hrest _ (by omega)
    have hnl : ¬ data.length > maxLen := by omega
    constructor <;>
      simp [sendOnly, sendLengthPhase, sendPayloadPhase, tryWrite, doReconnect,
        hnl, hok0, h1, h2]

/-- Witness for C1 amended: the first write fails, the retry and the
payload write succeed; the call completes with exactly one reconnect. -/
theorem sendOnly_reconnect_policy_witness :
    (sendOnly (fun j => decide (j ≠ 0)) 100 [104, 105] Wire.init).1.reconnects ≤
      Wire.init.reconnects + 2 ∧
    (sendOnly (fun j => decide (j ≠ 0)) 100 [104, 105] Wire.init).2 = none ∧
    (sendOnly (fun j => decide (j ≠ 0)) 100 [104, 105] Wire.init).1.reconnects =
      Wire.init.reconnects + 1 := by
  have h := sendOnly_reconnect_policy (fun j => decide (j ≠ 0)) 100 [104, 105] Wire.init
  exact ⟨h.1, h.2 (by decide) (by decide) (fun j hj => decide_eq_true hj)⟩

/-- C6: an oversized payload makes send fail with the ValueError-class
oversized error carrying the actual and the allowed size, before any
write: the wire state is returned unchanged. -/
theorem send_oversized (ok : Nat → Bool) (reads : Nat → ReadEvent)
    (maxLen : Nat) (data : List Nat) (w : Wire) (fuel : Nat)
    (h : maxLen < data.length) :
    send ok reads maxLen data w fuel =
      some (w, Except.error (Err.oversized data.length maxLen)) := by
  simp [send, sendOnly, h]

/-- Witness for C6 at a concrete oversized payload. -/
theorem send_oversized_witness :
    send (fun _ => true) (fun _ => ReadEvent.bytes []) 1 [104, 105] Wire.init 3 =
      some (Wire.init, Except.error (Err.oversized 2 1)) :=
  send_oversized (fun _ => true) (fun _ => ReadEvent.bytes []) 1 [104, 105]
    Wire.init 3 (by decide)

/-- C5: when every write succeeds and the 10-byte length-header read
returns empty bytes, send signals the server-unexpectedly-died error and
the final wire shows no reconnect was performed. -/
theorem send_peer_terminated (ok : Nat → Bool) (reads : Nat → ReadEvent)
    (maxLen : Nat) (data : List Nat) (w : Wire) (fuel : Nat)
    (hlen : data.length ≤ maxLen) (hok : ∀ j, ok j = true)
    (hread : reads 0 = ReadEvent.bytes []) :
    send ok reads maxLen data w fuel =
      some (Wire.mk (w.writesAttempted + 2) w.reconnects
              (w.written ++ [encodeLength data.length, data]),
            Except.error Err.peerTerminated) ∧
    (Wire.mk (w.writesAttempted + 2) w.reconnects
        (w.written ++ [encodeLength data.length, data])).reconnects = w.reconnects := by
  have hnl : ¬ data.length > maxLen := by omega
  refine ⟨?_, rfl⟩
  simp [send, sendOnly, sendLengthPhase, sendPayloadPhase, tryWrite, receiveOnly,
    hnl, hok, hread]

/-- Witness for C5 at a concrete transport double. -/
theorem send_peer_terminated_witness :
    send (fun _ => true) (fun _ => ReadEvent.bytes []) 100 [104, 105] Wire.init 3 =
      some (Wire.mk 2 0 [encodeLength 2, [104, 105]],
            Except.error Err.peerTerminated) := by
  have h := send_peer_terminated (fun _ => true) (fun _ => ReadEvent.bytes [])
    100 [104, 105] Wire.init 3 (by decide) (fun _ => rfl) rfl
  simpa using h.1

/-- C2 counterexample: with the header read delivering a well-formed
length and a KeyboardInterrupt arriving during the body read, send
propagates the raw interrupt instead of the converted receive-aborted
error. -/
theorem send_body_interrupt_counterexample :
    send (fun _ => true)
      (fun i => if i = 0 then ReadEvent.bytes [32, 32, 32, 32, 32, 32, 32, 32, 32, 50]
                else ReadEvent.interrupt)
      100 [104, 105] Wire.init 5 =
      some (Wire.mk 2 0 [[32, 32, 32, 32, 32, 32, 32, 32, 32, 50], [104, 105]],
            Except.error Err.rawInterrupt) ∧
    Err.rawInterrupt ≠ Err.receiveAborted :=
  ⟨rfl, by decide⟩

/-- C2 amended: the interrupt-to-receive-aborted conversion applies to a
KeyboardInterrupt arriving while blocked in the 10-byte length-header
read; an interrupt during the body-accumulation phase propagates raw. -/
theorem send_interrupt_header (ok : Nat → Bool) (reads : Nat → ReadEvent)
    (maxLen : Nat) (data : List Nat) (w : Wire) (fuel : Nat)
    (hlen : data.length ≤ maxLen) (hok : ∀ j, ok j = true)
    (hread : reads 0 = ReadEvent.interrupt) :
    send ok reads maxLen data w fuel =
      some (Wire.mk (w.writesAttempted + 2) w.reconnects
              (w.written ++ [encodeLength data.length, data]),
            Except.error Err.receiveAborted) := by
  have hnl : ¬ data.length > maxLen := by omega
  simp [send, sendOnly, sendLengthPhase, sendPayloadPhase, tryWrite, receiveOnly,
    hnl, hok, hread]

/-- Witness for C2 amended at a concrete transport double. -/
theorem send_interrupt_header_witness :
    send (fun _ => true) (fun _ => ReadEvent.interrupt) 100 [104, 105] Wire.init 3 =
      some (Wire.mk 2 0 [encodeLength 2, [104, 105]],
            Except.error Err.receiveAborted) := by
  have h := send_interrupt_header (fun _ => true) (fun _ => ReadEvent.interrupt)
    100 [104, 105] Wire.init 3 (by decide) (fun _ => rfl) rfl
  simpa using h

end Skillbridge

namespace Skillbridge

theorem receiveBody_zero_rem (reads : Nat → ReadEvent) (i f : Nat) :
    receiveBody reads i 0 (f + 1) = some (Except.ok []) := by
  simp [receiveBody]

theorem receiveBody_succ_interrupt (reads : Nat → ReadEvent) (i n f : Nat)
    (hn : n ≠ 0) (hre : reads i = ReadEvent.interrupt) :
    receiveBody reads i n (f + 1) = some (Except.error Err.rawInterrupt) := by
  simp only [receiveBody]
  rw [if_neg hn, hre]

theorem receiveBody_succ_bytes (reads : Nat → ReadEvent) (i n f : Nat) (b : List Nat)
    (hn : n ≠ 0) (hre : reads i = ReadEvent.bytes b) :
    receiveBody reads i n (f + 1) =
      match receiveBody reads (i + 1) (n - (b.take n).length) f with
      | none => none
      | some (Except.error e) => some (Except.error e)
      | some (Except.ok rest) => some (Except.ok (b.take n ++ rest)) := by
  simp only [receiveBody]
  rw [if_neg hn, hre]

theorem receiveBody_mono (reads : Nat → ReadEvent) :
    ∀ f g i n r, f ≤ g → receiveBody reads i n f = some r →
      receiveBody reads i n g = some r := by
  intro f
  induction f with
  | zero => intro g i n r _ h; simp [receiveBody] at h
  | succ f ih =>
      intro g i n r hfg h
      cases g with
      | zero => omega
      | succ g =>
          by_cases hn : n = 0
          · subst hn
            rw [receiveBody_zero_rem] at h ⊢
            exact h
          · cases hre : reads i with
            | interrupt =>
                rw [receiveBody_succ_interrupt reads i n f hn hre] at h
                rw [receiveBody_succ_interrupt reads i n g hn hre]
                exact h
            | bytes b =>
                rw [receiveBody_succ_bytes reads i n f b hn hre] at h
                rw [receiveBody_succ_bytes reads i n g b hn hre]
                cases hrec : receiveBody reads (i + 1) (n - (b.take n).length) f with
                | none => rw [hrec] at h; simp at h
                | some r2 =>
                    rw [hrec] at h
                    rw [ih g (i + 1) (n - (b.take n).length) r2 (by omega) hrec]
                    exact h

theorem receiveBody_length (reads : Nat → ReadEvent) :
    ∀ fuel i n bs, receiveBody reads i n fuel = some (Except.ok bs) →
      bs.length = n := by
  intro fuel
  induction fuel with
  | zero => intro i n bs h; simp [receiveBody] at h
  | succ f ih =>
      intro i n bs h
      by_cases hn : n = 0
      · subst hn
        rw [receiveBody_zero_rem] at h
        simp only [Option.some.injEq, Except.ok.injEq] at h
        simp [← h]
      · cases hre : reads i with
        | interrupt =>
            rw [receiveBody_succ_interrupt reads i n f hn hre] at h
            simp at h
        | bytes b =>
            rw [receiveBody_succ_bytes reads i n f b hn hre] at h
            cases hrec : receiveBody reads (i + 1) (n - (b.take n).length) f with
            | none => rw [hrec] at h; simp at h
            | some r2 =>
                rw [hrec] at h
                cases r2 with
                | error e => simp at h
                | ok rest =>
                    simp only [Option.some.injEq, Except.ok.injEq] at h
                    have hrest := ih _ _ _ hrec
                    have htake : (b.take n).length ≤ n := by
                      rw [List.length_take]; omega
                    subst h
                    rw [List.length_append, hrest]
                    omega

theorem receiveBody_starves (reads : Nat → ReadEvent)
    (hreads : ∀ j, reads j = ReadEvent.bytes []) :
    ∀ fuel i n, 0 < n → receiveBody reads i n fuel = none := by
  intro fuel
  induction fuel with
  | zero => intro i n _; rfl
  | succ f ih =>
      intro i n hn
      rw [receiveBody_succ_bytes reads i n f [] (by omega) (hreads i)]
      simp only [List.take_nil, List.length_nil, Nat.sub_zero]
      rw [ih (i + 1) n hn]

theorem receiveBody_completes (reads : Nat → ReadEvent)
    (hreads : ∀ j, ∃ b, reads j = ReadEvent.bytes b ∧ b ≠ []) :
    ∀ n i, receiveBody reads i n (n + 1) ≠ none := by
  intro n
  induction n using Nat.strong_induction_on with
  | _ n ih =>
      intro i
      by_cases hn : n = 0
      · subst hn; rw [receiveBody_zero_rem]; simp
      · obtain ⟨b, hb, hbne⟩ := hreads i
        rw [receiveBody_succ_bytes reads i n n b hn hb]
        have hdl : 1 ≤ (b.take n).length := by
          have hb0 : 0 < b.length := List.length_pos.mpr hbne
          rw [List.length_take]; omega
        have hlt : n - (b.take n).length < n := by omega
        have hstep := ih _ hlt (i + 1)
        cases hrec : receiveBody reads (i + 1) (n - (b.take n).length)
            (n - (b.take n).length + 1) with
        | none => exact absurd hrec hstep
        | some r2 =>
            have hmono := receiveBody_mono reads _ n (i + 1)
              (n - (b.take n).length) r2 (by omega) hrec
            rw [hmono]
            cases r2 <;> simp

/-- C10: the body-accumulation loop of _receive_all terminates exactly
when the transport has supplied the outstanding byte count: whenever it
terminates it has accumulated exactly n bytes; if every read returns
empty bytes while bytes are outstanding it never terminates and never
produces an error; and when every read supplies at least one byte it
terminates within n reads. -/
theorem receiveAll_termination (reads : Nat → ReadEvent) (i n : Nat) :
    (∀ fuel bs, receiveBody reads i n fuel = some (Except.ok bs) → bs.length = n) ∧
    ((∀ j, reads j = ReadEvent.bytes []) → 0 < n →
      ∀ fuel, receiveBody reads i n fuel = none) ∧
    ((∀ j, ∃ b, reads j = ReadEvent.bytes b ∧ b ≠ []) →
      receiveBody reads i n (n + 1) ≠ none) :=
  ⟨fun fuel bs h => receiveBody_length reads fuel i n bs h,
   fun he hn fuel => receiveBody_starves reads he fuel i n hn,
   fun hne => receiveBody_completes reads hne n i⟩

/-- Witness for C10: a transport supplying two then one byte yields
exactly three bytes; an all-empty transport never terminates; a
transport supplying bytes on every read terminates within the bound. -/
theorem receiveAll_termination_witness :
    List.length [97, 98, 97] = 3 ∧
    receiveBody (fun _ => ReadEvent.bytes []) 0 1 7 = none ∧
    receiveBody (fun _ => ReadEvent.bytes [97, 98]) 0 3 4 ≠ none :=
  ⟨(receiveAll_termination (fun _ => ReadEvent.bytes [97, 98]) 0 3).1 5 [97, 98, 97] rfl,
   (receiveAll_termination (fun _ => ReadEvent.bytes []) 0 1).2.1 (fun _ => rfl) (by decide) 7,
   (receiveAll_termination (fun _ => ReadEvent.bytes [97, 98]) 0 3).2.2
     (fun _ => ⟨[97, 98], rfl, by decide⟩)⟩

end Skillbridge

namespace Skillbridge

theorem flush_aux (readable : Nat → Bool) (reads : Nat → List Nat) (k : Nat)
    (hk : readable k = false)
    (hp : ∀ j, j < k → (parseIntBytes (reads j)).isSome = true) :
    ∀ f i, i ≤ k → k < i + f → flush readable reads i f = some (Except.ok ()) := by
  intro f
  induction f with
  | zero => intro i h1 h2; omega
  | succ f ih =>
      intro i h1 h2
      rw [flush]
      by_cases hri : readable i = true
      · have hik : i ≠ k := by
          intro e; rw [e, hk] at hri; exact Bool.noConfusion hri
        have hlt : i < k := by omega
        obtain ⟨n, hpn⟩ := Option.isSome_iff_exists.mp (hp i hlt)
        rw [if_pos hri, hpn]
        exact ih (i + 1) (by omega) (by omega)
      · rw [if_neg hri]

/-- C4 counterexample: with the transport readable and a stray chunk
whose first bytes are not a decimal numeral, the int parse of the header
raises a ValueError which escapes flush, so flush does not always return
normally. -/
theorem flush_raises_counterexample :
    flush (fun _ => true) (fun _ => [103, 97, 114, 98, 97, 103, 101, 120, 121, 122]) 0 3 =
      some (Except.error Err.headerParse) ∧
    (Except.error Err.headerParse : Except Err Unit) ≠ Except.ok () :=
  ⟨rfl, fun h => Except.noConfusion h⟩

/-- C4 amended: flush is bounded by its poll loop and returns normally
provided every header it reads parses as a decimal integer and some
poll eventually reports no readable data; but when a header read yields
bytes that int cannot parse (a malformed or truncated stray frame), the
ValueError escapes flush instead of being swallowed. -/
theorem flush_returns (readable : Nat → Bool) (reads : Nat → List Nat) (k : Nat)
    (hk : readable k = false)
    (hp : ∀ j, j < k → (parseIntBytes (reads j)).isSome = true) :
    flush readable reads 0 (k + 1) = some (Except.ok ()) :=
  flush_aux readable reads k hk hp (k + 1) 0 (by omega) (by omega)

/-- Witness for C4 amended: one well-formed stray frame followed by a
quiet poll. -/
theorem flush_returns_witness :
    flush (fun i => decide (i = 0)) (fun _ => [32, 32, 32, 32, 32, 32, 32, 32, 49, 50]) 0 2 =
      some (Except.ok ()) :=
  flush_returns (fun i => decide (i = 0))
    (fun _ => [32, 32, 32, 32, 32, 32, 32, 32, 49, 50]) 1 (by decide) (by decide)

end Skillbridge

namespace Skillbridge

theorem toDecimalAux_fuel_irrel :
    ∀ f g n, n < f → n < g → toDecimalAux f n = toDecimalAux g n := by
  intro f
  induction f with
  | zero => intro g n h1 _; omega
  | succ f ih =>
      intro g n hf hg
      cases g with
      | zero => omega
      | succ g =>
          simp only [toDecimalAux]
          by_cases h10 : n < 10
          · simp [h10]
          · simp only [h10, if_false]
            have hd : n / 10 < n := Nat.div_lt_self (by omega) (by omega)
            rw [ih g (n / 10) (by omega) (by omega)]

theorem toDecimal_unfold (n : Nat) :
    toDecimal n = if n < 10 then [48 + n] else toDecimal (n / 10) ++ [48 + n % 10] := by
  by_cases h10 : n < 10
  · simp [toDecimal, toDecimalAux, h10]
  · rw [if_neg h10]
    show toDecimalAux (n + 1) n = toDecimal (n / 10) ++ [48 + n % 10]
    have hd : n / 10 < n := Nat.div_lt_self (by omega) (by omega)
    rw [toDecimalAux, if_neg h10, toDecimal,
      toDecimalAux_fuel_irrel n (n / 10 + 1) (n / 10) (by omega) (by omega)]

theorem digitsVal_snoc (xs : List Nat) (c : Nat) :
    digitsVal (xs ++ [c]) = digitsVal xs * 10 + (c - 48) := by
  simp [digitsVal, List.foldl_append]

theorem digitsVal_toDecimal (n : Nat) : digitsVal (toDecimal n) = n := by
  induction n using Nat.strong_induction_on with
  | _ n ih =>
      rw [toDecimal_unfold]
      by_cases h10 : n < 10
      · rw [if_pos h10]
        simp only [digitsVal, List.foldl_cons, List.foldl_nil]
        omega
      · rw [if_neg h10, digitsVal_snoc,
          ih (n / 10) (Nat.div_lt_self (by omega) (by omega))]
        omega

theorem toDecimal_digits (n : Nat) : ∀ c ∈ toDecimal n, isDigitByte c = true := by
  induction n using Nat.strong_induction_on with
  | _ n ih =>
      rw [toDecimal_unfold]
      by_cases h10 : n < 10
      · rw [if_pos h10]
        intro c hc
        simp only [List.mem_singleton] at hc
        simp only [isDigitByte, Bool.and_eq_true, decide_eq_true_eq]
        omega
      · rw [if_neg h10]
        intro c hc
        rw [List.mem_append] at hc
        rcases hc with hc | hc
        · exact ih (n / 10) (Nat.div_lt_self (by omega) (by omega)) c hc
        · simp only [List.mem_singleton] at hc
          simp only [isDigitByte, Bool.and_eq_true, decide_eq_true_eq]
          have : n % 10 < 10 := Nat.mod_lt n (by omega)
          omega

theorem toDecimal_ne_nil (n : Nat) : toDecimal n ≠ [] := by
  rw [toDecimal_unfold]
  by_cases h10 : n < 10 <;> simp [h10]

theorem toDecimal_length_le (n : Nat) :
    ∀ k, 1 ≤ k → n < 10 ^ k → (toDecimal n).length ≤ k := by
  induction n using Nat.strong_induction_on with
  | _ n ih =>
      intro k hk hn
      rw [toDecimal_unfold]
      by_cases h10 : n < 10
      · rw [if_pos h10]
        simpa using hk
      · rw [if_neg h10]
        have hk2 : 2 ≤ k := by
          by_contra hcon
          have hk1 : k = 1 := by omega
          rw [hk1, pow_one] at hn
          omega
        have hpow : 10 ^ k = 10 ^ (k - 1) * 10 := by
          rw [← pow_succ]
          congr 1
          omega
        have hdiv : n / 10 < 10 ^ (k - 1) := by
          rw [hpow] at hn
          exact (Nat.div_lt_iff_lt_mul (by omega)).mpr hn
        have hih := ih (n / 10) (Nat.div_lt_self (by omega) (by omega))
          (k - 1) (by omega) hdiv
        rw [List.length_append]
        simp only [List.length_singleton]
        omega

end Skillbridge

namespace Skillbridge

theorem dropWhile_space_replicate (m : Nat) (ds : List Nat) :
    (List.replicate m spaceByte ++ ds).dropWhile (fun c => c == spaceByte) =
      ds.dropWhile (fun c => c == spaceByte) := by
  induction m with
  | zero => simp
  | succ m ih => simp [List.replicate_succ, ih]

theorem dropWhile_space_of_digits (l : List Nat)
    (hl : ∀ c ∈ l, isDigitByte c = true) :
    l.dropWhile (fun c => c == spaceByte) = l := by
  cases l with
  | nil => rfl
  | cons c rest =>
      have hc : isDigitByte c = true := hl c (by simp)
      have hcs : (c == spaceByte) = false := by
        simp only [isDigitByte, Bool.and_eq_true, decide_eq_true_eq] at hc
        simp only [spaceByte, beq_eq_false_iff_ne, ne_eq]
        omega
      simp [List.dropWhile_cons, hcs]

theorem stripSpaces_padded (m : Nat) (ds : List Nat)
    (hd : ∀ c ∈ ds, isDigitByte c = true) :
    stripSpaces (List.replicate m spaceByte ++ ds) = ds := by
  unfold stripSpaces
  rw [dropWhile_space_replicate, dropWhile_space_of_digits ds hd,
    dropWhile_space_of_digits ds.reverse (fun c hc => hd c (List.mem_reverse.mp hc)),
    List.reverse_reverse]

theorem parseIntBytes_padded_digits (m : Nat) (ds : List Nat) (hne : ds ≠ [])
    (hd : ∀ c ∈ ds, isDigitByte c = true) :
    parseIntBytes (List.replicate m spaceByte ++ ds) = some (digitsVal ds) := by
  simp only [parseIntBytes]
  rw [stripSpaces_padded m ds hd, if_neg hne, if_pos (List.all_eq_true.mpr hd)]

theorem encodeLength_spec (n : Nat) (h : n < 10 ^ 10) :
    (encodeLength n).length = 10 ∧ parseIntBytes (encodeLength n) = some n := by
  have hlen := toDecimal_length_le n 10 (by omega) h
  have hdig := toDecimal_digits n
  have hnn := toDecimal_ne_nil n
  simp only [encodeLength]
  by_cases hc : (toDecimal n).length < 10
  · rw [if_pos hc]
    refine ⟨?_, ?_⟩
    · rw [List.length_append, List.length_replicate]; omega
    · rw [parseIntBytes_padded_digits _ _ hnn hdig, digitsVal_toDecimal]
  · rw [if_neg hc]
    refine ⟨by omega, ?_⟩
    have hp := parseIntBytes_padded_digits 0 (toDecimal n) hnn hdig
    rw [List.replicate_zero, List.nil_append] at hp
    rw [hp, digitsVal_toDecimal]

/-- C7 amended: framing round-trips byte-for-byte for every payload
within the configured limit, provided that limit is below the capacity
of the 10-byte decimal length field (ten to the tenth), as the default
limits are. -/
theorem frame_roundtrip (payload : List Nat) (maxLen : Nat)
    (hle : payload.length ≤ maxLen) (hmax : maxLen < 10 ^ 10) :
    decode_frame (encode_frame payload) = some payload := by
  have h := encodeLength_spec payload.length (by omega)
  simp only [decode_frame, encode_frame]
  rw [List.take_left' h.1, List.drop_left' h.1, h.2]
  simp [List.take_length]

/-- Witness for C7 amended at a concrete payload and the TCP default
transmission limit. -/
theorem frame_roundtrip_witness :
    decode_frame (encode_frame [104, 105]) = some [104, 105] :=
  frame_roundtrip [104, 105] 1000000 (by decide) (by norm_num)

theorem encode_frame_big :
    encode_frame (List.replicate (10 ^ 10) 48) =
      [49, 48, 48, 48, 48, 48, 48, 48, 48, 48, 48] ++ List.replicate (10 ^ 10) 48 := by
  have henc : encodeLength (List.replicate (10 ^ 10) 48).length =
      [49, 48, 48, 48, 48, 48, 48, 48, 48, 48, 48] := by
    rw [List.length_replicate]
    decide
  rw [encode_frame, henc]

theorem decode_frame_big :
    decode_frame ([49, 48, 48, 48, 48, 48, 48, 48, 48, 48, 48] ++ List.replicate (10 ^ 10) 48) =
      some (List.take 1000000000 ([48] ++ List.replicate (10 ^ 10) 48)) := by
  simp only [decode_frame]
  have h49 : ([49, 48, 48, 48, 48, 48, 48, 48, 48, 48, 48] : List Nat) =
      [49, 48, 48, 48, 48, 48, 48, 48, 48, 48] ++ [48] := by decide
  rw [h49, List.append_assoc,
    List.take_left' (by decide : ([49, 48, 48, 48, 48, 48, 48, 48, 48, 48] : List Nat).length = 10),
    List.drop_left' (by decide : ([49, 48, 48, 48, 48, 48, 48, 48, 48, 48] : List Nat).length = 10)]
  have hparse : parseIntBytes [49, 48, 48, 48, 48, 48, 48, 48, 48, 48] =
      some 1000000000 := by decide
  rw [hparse]

theorem take_append_replicate_ne (n : Nat) (hn : 1000000000 < n) :
    List.take 1000000000 ([48] ++ List.replicate n 48) ≠ List.replicate n 48 := by
  intro hcon
  have hc2 := congrArg List.length hcon
  rw [List.length_take, List.length_append, List.length_replicate] at hc2
  simp only [List.length_singleton] at hc2
  omega

/-- C7 counterexample: with the mutable transmission limit set to ten
to the tenth, a payload of exactly that many bytes satisfies the
length bound, yet its decimal length takes eleven digits, so the frame
header overflows its 10-byte field and decoding yields a different
payload: the round-trip fails. -/
theorem frame_roundtrip_counterexample :
    (List.replicate (10 ^ 10) 48).length ≤ 10 ^ 10 ∧
    decode_frame (encode_frame (List.replicate (10 ^ 10) 48)) ≠
      some (List.replicate (10 ^ 10) 48) := by
  constructor
  · rw [List.length_replicate]
  · rw [encode_frame_big, decode_frame_big]
    intro hcon
    simp only [Option.some.injEq] at hcon
    exact take_append_replicate_ne (10 ^ 10) (by norm_num) hcon

end Skillbridge
